import Mathlib

/-
Verification of the buffer cache (kernel/bio.c) and the sharded physical page
allocator (kernel/kalloc.c) of this xv6 lab repository.

The code is shallowly embedded: the intrusive circular doubly linked bucket
lists are modelled index-based (a bucket is the list of buffer indices it
holds, front = `head.next`, back = `head.prev`), C unsigned ints are Nat with
explicit wraparound mod 2^32, the per-core free lists are `List Nat` of frame
addresses, and panics are `Except.error` / `none` outcomes.  Spinlock and
eviction-lock acquisition is tracked explicitly where a claim talks about it
(the eviction scan and the bucket-list mutations), as a set of held bucket
indices; executions are sequential, one operation at a time.
-/

set_option maxHeartbeats 1000000
set_option maxRecDepth 8192

namespace Xv6

/-! ## Buffer cache: data model (bio.c, buf.h) -/

/-- `NBUCKET` from bio.c line 26. -/
def NBUCKET : Nat := 13

/-- `NBUF`.  Modelled from the spec: param.h is not part of src/; the spec
fixes the total buffer count at 30 ("13 buckets, 30 total buffers"). -/
def NBUF : Nat := 30

/-- C `uint` modulus: reference counts are 32-bit unsigned. -/
def U32 : Nat := 2 ^ 32

/-- One `struct buf` (buf.h): device, block number, validity flag, reference
count, the sleep-lock (`lockHeld` = held by the caller in this sequential
model) and an abstract payload word standing for `data[BSIZE]`. -/
structure Buf where
  dev : Nat
  blockno : Nat
  valid : Bool
  refcnt : Nat
  lockHeld : Bool
  data : Nat
deriving Repr, DecidableEq, Inhabited

/-- The whole `bcache`: the fixed buffer pool and the 13 bucket lists of
buffer indices (front of the list = `head.next` = most recently inserted). -/
structure BCache where
  bufs : List Buf
  buckets : List (List Nat)
deriving Repr, DecidableEq, Inhabited

/-- Read buffer `i` (out-of-range reads give the all-zero default, which no
real execution performs). -/
def buf (st : BCache) (i : Nat) : Buf := st.bufs.getD i default

/-- Bucket `j`'s list of buffer indices. -/
def bkt (st : BCache) (j : Nat) : List Nat := st.buckets.getD j []

/-- Overwrite buffer `i`. -/
def setBuf (st : BCache) (i : Nat) (b : Buf) : BCache :=
  { st with bufs := st.bufs.set i b }

/-- `b->refcnt++` (32-bit unsigned increment). -/
def incRef (b : Buf) : Buf := { b with refcnt := (b.refcnt + 1) % U32 }

/-- `b->refcnt--` (32-bit unsigned decrement, wrapping at 0). -/
def decRef (b : Buf) : Buf := { b with refcnt := (b.refcnt + (U32 - 1)) % U32 }

/-- Repurpose a free buffer (bio.c lines 91-94 / 152-155 / 183-186 /
206-209): `b->dev = dev; b->blockno = blockno; b->valid = 0; b->refcnt = 1`. -/
def repurpose (b : Buf) (dev blockno : Nat) : Buf :=
  { b with dev := dev, blockno := blockno, valid := false, refcnt := 1 }

/-- `acquiresleep(&b->lock)`: in this sequential model the caller obtains the
buffer's blocking lock. -/
def acquireSleep (st : BCache) (i : Nat) : BCache :=
  setBuf st i { buf st i with lockHeld := true }

/-- Unlink buffer `i` from the doubly linked list its `prev`/`next` pointers
currently place it in (bio.c lines 197-198, 261-262).  Index-based model:
erase it from every bucket list (it occurs in exactly one). -/
def unlink (st : BCache) (i : Nat) : BCache :=
  { st with buckets := st.buckets.map (fun l => l.erase i) }

/-- Splice buffer `i` in at `head.next` of bucket `j` (bio.c lines 201-204,
263-266): the front of the list. -/
def pushFront (st : BCache) (j i : Nat) : BCache :=
  { st with buckets := st.buckets.set j (i :: bkt st j) }

/-- Unlink buffer `i` and splice it in at the front of bucket `idx`
(the `brelse` move-to-MRU, bio.c lines 261-266). -/
def moveFront (st : BCache) (idx i : Nat) : BCache :=
  pushFront (unlink st i) idx i

/-- The bucket whose list currently contains buffer `i` (the list the
`prev`/`next` pointers of `i` link into). -/
def bucketOf (st : BCache) (i : Nat) : Nat :=
  st.buckets.findIdx (fun l => decide (i ∈ l))

/-! ### Scans -/

/-- Forward scan of bucket `idx` (from `head.next`) for a cached copy of
(`dev`, `blockno`) — bio.c lines 74-81, 139-147, 169-178. -/
def findHit (st : BCache) (idx dev blockno : Nat) : Option Nat :=
  (bkt st idx).find? (fun b => (buf st b).dev == dev && (buf st b).blockno == blockno)

/-- Backward scan of bucket `idx` (from `head.prev`, the LRU end) for a
buffer with `refcnt == 0` — bio.c lines 88-99 and the inner loop of lines
116-122. -/
def findFreeRev (st : BCache) (idx : Nat) : Option Nat :=
  (bkt st idx).reverse.find? (fun b => (buf st b).refcnt == 0)

/-- Forward scan of bucket `idx` for a buffer with `refcnt == 0` — bio.c
lines 150-161, 181-193. -/
def findFreeFwd (st : BCache) (idx : Nat) : Option Nat :=
  (bkt st idx).find? (fun b => (buf st b).refcnt == 0)

/-! ### The eviction scan (bio.c lines 107-129)

The loop acquires every bucket spinlock in ascending order `i = 0..NBUCKET-1`,
records whether `i == idx` was passed (`locked_idx`), and at each iteration
scans bucket `idx`'s list — exactly as the source does: line 116 reads
`bcache.bkt[idx].head.prev`, with `idx`, not `i` — for a buffer with
`refcnt == 0`; on success it breaks keeping bucket `i`'s lock, otherwise it
releases bucket `i`'s lock unless `i == idx`.  `held` is the list of bucket
locks currently held. -/

def evictLoop (st : BCache) (idx : Nat) :
    Nat → Nat → Bool → List Nat → Option (Nat × Nat) × Bool × List Nat
  | 0, _, lockedIdx, held => (none, lockedIdx, held)
  | fuel + 1, i, lockedIdx, held =>
    let held1 := held ++ [i]
    let locked1 := lockedIdx || (i == idx)
    match findFreeRev st idx with
    | some b => (some (i, b), locked1, held1)
    | none =>
      if i = idx then evictLoop st idx fuel (i + 1) locked1 held1
      else evictLoop st idx fuel (i + 1) locked1 (held1.erase i)

/-! ### Membership-change events

Each operation reports the bucket-list membership changes it performs,
together with the bucket spinlocks held at that moment and whether the global
eviction lock was held. -/

structure MutEvent where
  buffer : Nat
  src : Nat
  dst : Nat
  locks : List Nat
  evict : Bool
deriving Repr, DecidableEq

/-! ### bget (bio.c lines 66-220) -/

/-- `bget(dev, blockno)`.  Returns the chosen buffer index (or the panic
message), the new cache state, and the membership-change events.  The
structure mirrors the source: cache-hit scan, same-bucket free scan, the
eviction scan under the eviction lock, the `locked_idx` re-acquire of bucket
`locked_idx` (i.e. bucket 0 — the source's line 132; re-acquiring a spinlock
already held panics in `acquire`), the two re-checks, and the migration. -/
def bget (dev blockno : Nat) (st : BCache) :
    Except String Nat × BCache × List MutEvent :=
  let idx := blockno % NBUCKET
  match findHit st idx dev blockno with
  | some b =>
    (Except.ok b, acquireSleep (setBuf st b (incRef (buf st b))) b, [])
  | none =>
    match findFreeRev st idx with
    | some b =>
      (Except.ok b, acquireSleep (setBuf st b (repurpose (buf st b) dev blockno)) b, [])
    | none =>
      match evictLoop st idx NBUCKET 0 false [] with
      | (found, lockedIdx, held) =>
        if lockedIdx = false ∧ 0 ∈ held then (Except.error "acquire", st, [])
        else
          match found with
          | none =>
            match findHit st idx dev blockno with
            | some b =>
              (Except.ok b, acquireSleep (setBuf st b (incRef (buf st b))) b, [])
            | none =>
              match findFreeFwd st idx with
              | some b =>
                (Except.ok b,
                 acquireSleep (setBuf st b (repurpose (buf st b) dev blockno)) b, [])
              | none => (Except.error "bget: no buffers", st, [])
          | some (_, fbuf) =>
            match findHit st idx dev blockno with
            | some b =>
              (Except.ok b, acquireSleep (setBuf st b (incRef (buf st b))) b, [])
            | none =>
              match findFreeFwd st idx with
              | some b =>
                (Except.ok b,
                 acquireSleep (setBuf st b (repurpose (buf st b) dev blockno)) b, [])
              | none =>
                let held2 := if lockedIdx = false then held ++ [0] else held
                let stM := setBuf (pushFront (unlink st fbuf) idx fbuf) fbuf
                  (repurpose (buf st fbuf) dev blockno)
                (Except.ok fbuf, acquireSleep stM fbuf,
                 [{ buffer := fbuf, src := bucketOf st fbuf, dst := idx,
                    locks := held2, evict := true }])

/-! ### bread, bwrite, brelse, bpin, bunpin (bio.c lines 222-286) -/

inductive DiskOp where
  | read (dev blockno : Nat)
  | write (dev blockno data : Nat)
deriving Repr, DecidableEq

/-- `bread(dev, blockno)`: `bget`, then a synchronous device read into the
payload if the buffer is not valid, marking it valid. -/
def bread (dev blockno : Nat) (disk : Nat → Nat → Nat) (st : BCache) :
    Except String (Nat × BCache × List DiskOp) :=
  match bget dev blockno st with
  | (Except.error e, _, _) => Except.error e
  | (Except.ok b, st1, _) =>
    if (buf st1 b).valid then Except.ok (b, st1, [])
    else
      Except.ok (b,
        setBuf st1 b { buf st1 b with valid := true, data := disk dev blockno },
        [DiskOp.read dev blockno])

/-- `bwrite(b)` (bio.c lines 237-243): panic unless the caller holds the
buffer's blocking lock; otherwise one synchronous device write of the
payload, and no state change at all. -/
def bwrite (i : Nat) (st : BCache) : Except String (BCache × List DiskOp) :=
  if (buf st i).lockHeld then
    Except.ok (st, [DiskOp.write (buf st i).dev (buf st i).blockno (buf st i).data])
  else Except.error "bwrite"

/-- `brelse(b)` (bio.c lines 247-270): panic unless the blocking lock is
held; release it, then under bucket `blockno % NBUCKET`'s spinlock decrement
the reference count, and if it reached 0 move the buffer to the front
(most-recently-used end) of that bucket's list. -/
def brelse (i : Nat) (st : BCache) : Except String Unit × BCache × List MutEvent :=
  if (buf st i).lockHeld then
    let idx := (buf st i).blockno % NBUCKET
    let b1 := decRef { buf st i with lockHeld := false }
    let st1 := setBuf st i b1
    if b1.refcnt = 0 then
      (Except.ok (), moveFront st1 idx i,
       [{ buffer := i, src := bucketOf st i, dst := idx, locks := [idx], evict := false }])
    else (Except.ok (), st1, [])
  else (Except.error "brelse", st, [])

/-- `bpin(b)` (bio.c lines 272-278): increment the reference count under the
bucket spinlock; nothing else. -/
def bpin (i : Nat) (st : BCache) : BCache := setBuf st i (incRef (buf st i))

/-- `bunpin(b)` (bio.c lines 280-286): decrement the reference count under
the bucket spinlock; nothing else — no check of the count's value. -/
def bunpin (i : Nat) (st : BCache) : BCache := setBuf st i (decRef (buf st i))

/-! ### binit (bio.c lines 39-61) -/

/-- Bucket lists after `binit`: buffer `i` is pushed at the front of bucket
`i % NBUCKET`, for `i = 0, 1, ..., n-1` in order. -/
def binitBuckets : Nat → List (List Nat)
  | 0 => List.replicate NBUCKET []
  | n + 1 =>
    let bs := binitBuckets n
    bs.set (n % NBUCKET) (n :: bs.getD (n % NBUCKET) [])

/-- The cache state after `binit`: `NBUF` zeroed buffers distributed
round-robin over the buckets. -/
def binitState : BCache :=
  { bufs := List.replicate NBUF default, buckets := binitBuckets NBUF }

/-! ### Operations and the bucket-membership invariant (for C2) -/

inductive Op where
  | get (dev blockno : Nat)
  | relse (i : Nat)
  | pin (i : Nat)
  | unpin (i : Nat)
deriving Repr, DecidableEq

/-- One buffer-cache operation: the state it leaves and the bucket-list
membership changes it performed. -/
def applyOp (op : Op) (st : BCache) : BCache × List MutEvent :=
  match op with
  | Op.get dev blockno => ((bget dev blockno st).2.1, (bget dev blockno st).2.2)
  | Op.relse i => ((brelse i st).2.1, (brelse i st).2.2)
  | Op.pin i => (bpin i st, [])
  | Op.unpin i => (bunpin i st, [])

/-- The structural invariant of the cache: 13 buckets; every bucket list is
duplicate-free, the bucket lists are pairwise disjoint, every buffer lies in
some bucket (hence in exactly one), bucket entries are in range, and a buffer
whose blocking lock is held sits in the bucket its block number hashes to. -/
def Inv (st : BCache) : Prop :=
  st.buckets.length = NBUCKET ∧
  (∀ j, j < NBUCKET → (bkt st j).Nodup) ∧
  (∀ j, j < NBUCKET → ∀ k, k < NBUCKET → j ≠ k → ∀ i, i ∈ bkt st j → i ∉ bkt st k) ∧
  (∀ i, i < st.bufs.length → ∃ j, j < NBUCKET ∧ i ∈ bkt st j) ∧
  (∀ j, j < NBUCKET → ∀ i, i ∈ bkt st j → i < st.bufs.length) ∧
  (∀ i, i < st.bufs.length → (buf st i).lockHeld = true →
    i ∈ bkt st ((buf st i).blockno % NBUCKET))

/-- Boolean duplicate-freedom check (used to evaluate `Inv` cheaply). -/
def nodupB : List Nat → Bool
  | [] => true
  | x :: xs => !(xs.contains x) && nodupB xs

/-- Executable check deciding `Inv` by plain Boolean list traversals. -/
def invCheck (st : BCache) : Bool :=
  (st.buckets.length == NBUCKET) &&
  ((List.range NBUCKET).all fun j => nodupB (bkt st j)) &&
  ((List.range NBUCKET).all fun j => (List.range NBUCKET).all fun k =>
    (j == k) || ((bkt st j).all fun i => !((bkt st k).contains i))) &&
  ((List.range st.bufs.length).all fun i =>
    (List.range NBUCKET).any fun j => (bkt st j).contains i) &&
  ((List.range NBUCKET).all fun j => (bkt st j).all fun i =>
    decide (i < st.bufs.length)) &&
  ((List.range st.bufs.length).all fun i =>
    !(buf st i).lockHeld || (bkt st ((buf st i).blockno % NBUCKET)).contains i)

/-! ### A driver: a sequence of `bread`s with no intervening `brelse` -/

/-- Issue `bread(1, n)` for each `n` in the list in order, collecting the
returned buffer indices; a panic halts the sequence and reports the panic
message. -/
def breadSeq (disk : Nat → Nat → Nat) : List Nat → BCache → List Nat × Option String × BCache
  | [], st => ([], none, st)
  | n :: ns, st =>
    match bread 1 n disk st with
    | Except.error e => ([], some e, st)
    | Except.ok (b, st1, _) =>
      let r := breadSeq disk ns st1
      (b :: r.1, r.2.1, r.2.2)

/-- A constant disk image (block contents are irrelevant here). -/
def disk0 : Nat → Nat → Nat := fun _ _ => 0

/-- The cache state reached from boot by `bread(1, 1); bread(1, 14);
bread(1, 27)` with no `brelse`: all three buffers of bucket 1 are checked
out, every buffer of every other bucket is free. -/
def c1State : BCache := (breadSeq disk0 [1, 14, 27] binitState).2.2

instance (st : BCache) : Decidable (Inv st) := by
  have d3 : Decidable
      (∀ j, j < NBUCKET → ∀ k, k < NBUCKET → j ≠ k → ∀ i, i ∈ bkt st j → i ∉ bkt st k) :=
    Nat.decidableBallLT NBUCKET
      (fun j _ => ∀ k, k < NBUCKET → j ≠ k → ∀ i, i ∈ bkt st j → i ∉ bkt st k)
  unfold Inv
  infer_instance

/-! ## Sharded frame allocator (kalloc.c) -/

/-- Page size (kalloc.c: "Allocates whole 4096-byte pages"). -/
def PGSIZE : Nat := 4096

/-- One per-core `kmem` cell: the free list (list of page addresses, front =
list head) and `freepg_cnt` (a C `int`). -/
structure Cpu where
  freelist : List Nat
  freepg_cnt : Int
deriving Repr, DecidableEq, Inhabited

/-- The `kmem[NCPU]` array; its length plays the role of `NCPU` (param.h is
not part of src/, so the core count is left abstract). -/
abbrev KState := List Cpu

def kcpu (st : KState) (i : Nat) : Cpu := st.getD i default

/-- `memset(pa, v, PGSIZE)` on a byte-addressed memory. -/
def memset (mem : Nat → Nat) (pa v : Nat) : Nat → Nat :=
  fun a => if pa ≤ a ∧ a < pa + PGSIZE then v else mem a

/-- The donor-search loop of `kalloc` (kalloc.c lines 96-113): scan cores in
ascending order starting at `i`, skipping the local core `id` (whose lock is
re-acquired and kept), stopping at the first core whose `freepg_cnt` is
nonzero. -/
def findDonorLoop (st : KState) (id : Nat) : Nat → Nat → Option Nat
  | 0, _ => none
  | fuel + 1, i =>
    if i = id then findDonorLoop st id fuel (i + 1)
    else if (kcpu st i).freepg_cnt ≠ 0 then some i
    else findDonorLoop st id fuel (i + 1)

def findDonor (st : KState) (id : Nat) : Option Nat := findDonorLoop st id st.length 0

/-- `kfree(pa)` on core `id` (kalloc.c lines 50-75).  `kend` models `end`
(the first address past the kernel image, a link-time symbol) and `phystop`
models `PHYSTOP`; both live outside src/.  `none` is the panic: `pa` not
page-aligned, below `end`, or at/above `PHYSTOP`.  Otherwise the frame is
junk-filled with byte 1 and pushed onto core `id`'s free list, whose count is
incremented. -/
def kfree (kend phystop pa id : Nat) (mem : Nat → Nat) (st : KState) :
    Option ((Nat → Nat) × KState) :=
  if pa % PGSIZE ≠ 0 ∨ pa < kend ∨ phystop ≤ pa then none
  else
    some (memset mem pa 1,
      st.set id { freelist := pa :: (kcpu st id).freelist,
                  freepg_cnt := (kcpu st id).freepg_cnt + 1 })

/-- `kalloc()` on core `id` (kalloc.c lines 80-150).  Fast path: pop the
local free list.  Otherwise find a donor core and steal
`steal_cnt = (donor_count + 1) / 2` frames: the C code walks `steal_cnt - 1`
links from the donor's list head and cuts there, so the local list becomes
the first `walk + 1` donor frames and the donor keeps the rest; both counts
are adjusted by `steal_cnt`, then one frame is popped from the replenished
local list.  A successful allocation junk-fills the returned frame with
byte 5.  The outer `none` marks the null-pointer dereference the C code
performs when the donor's list is shorter than the walk (impossible when
counts match list lengths); `Int.tdiv` is C's truncating division. -/
def kalloc (id : Nat) (mem : Nat → Nat) (st : KState) :
    Option (Option Nat × (Nat → Nat) × KState) :=
  match (kcpu st id).freelist with
  | r :: rest =>
    some (some r, memset mem r 5,
      st.set id { freelist := rest, freepg_cnt := (kcpu st id).freepg_cnt - 1 })
  | [] =>
    match findDonor st id with
    | none => some (none, mem, st)
    | some f =>
      let d := kcpu st f
      let steal : Int := Int.tdiv (d.freepg_cnt + 1) 2
      let walk : Nat := (steal - 1).toNat
      if d.freelist.length ≤ walk then none
      else
        match d.freelist.take (walk + 1) with
        | [] => none
        | r :: rest =>
          some (some r, memset mem r 5,
            (st.set f { freelist := d.freelist.drop (walk + 1),
                        freepg_cnt := d.freepg_cnt - steal }).set id
              { freelist := rest, freepg_cnt := (kcpu st id).freepg_cnt + steal - 1 })

/-! ### Concrete states used to instantiate the theorems -/

/-- The boot state written out literally (proved equal to `binitState`
below); keeps kernel evaluation of the concrete theorems cheap. -/
def binitLit : BCache :=
  { bufs := List.replicate NBUF default,
    buckets := [[26, 13, 0], [27, 14, 1], [28, 15, 2], [29, 16, 3], [17, 4], [18, 5],
                [19, 6], [20, 7], [21, 8], [22, 9], [23, 10], [24, 11], [25, 12]] }

/-- `c1State` written out literally (proved equal to `c1State` below). -/
def c1Lit : BCache :=
  { bufs := (((List.replicate NBUF default).set 1
      { dev := 1, blockno := 1, valid := true, refcnt := 1, lockHeld := true, data := 0 }).set 14
      { dev := 1, blockno := 14, valid := true, refcnt := 1, lockHeld := true, data := 0 }).set 27
      { dev := 1, blockno := 27, valid := true, refcnt := 1, lockHeld := true, data := 0 },
    buckets := [[26, 13, 0], [27, 14, 1], [28, 15, 2], [29, 16, 3], [17, 4], [18, 5],
                [19, 6], [20, 7], [21, 8], [22, 9], [23, 10], [24, 11], [25, 12]] }

/-- A small well-formed cache: buffer 0 checked out (lock held, count 1) in
bucket 0, buffer 1 free in bucket 1, all other buckets empty. -/
def smallState : BCache :=
  { bufs := [{ dev := 1, blockno := 0, valid := true, refcnt := 1, lockHeld := true, data := 0 },
             { dev := 1, blockno := 1, valid := false, refcnt := 0, lockHeld := false, data := 0 }],
    buckets := [[0], [1], [], [], [], [], [], [], [], [], [], [], []] }

/-- An all-zero memory image. -/
def kmem0 : Nat → Nat := fun _ => 0

/-- Two cores: core 0 has nothing, core 1 holds three frames. -/
def kSt5 : KState := [⟨[], 0⟩, ⟨[100, 200, 300], 3⟩]

/-- One core with no free frames. -/
def kSt6 : KState := [⟨[], 0⟩]

/-- The record a successful `bread(1, n)` leaves behind for buffer `n` in
the C4 scenario. -/
def allocBuf (n : Nat) : Buf :=
  { dev := 1, blockno := n, valid := true, refcnt := 1, lockHeld := true, data := 0 }

/-- The cache state after `bread(1, 0) ... bread(1, k-1)` from boot in the
C4 scenario: the first `k` buffers checked out, bucket lists unchanged. -/
def stageState (k : Nat) : BCache :=
  { bufs := (List.range NBUF).map (fun i => if i < k then allocBuf i else default),
    buckets := [[26, 13, 0], [27, 14, 1], [28, 15, 2], [29, 16, 3], [17, 4], [18, 5],
                [19, 6], [20, 7], [21, 8], [22, 9], [23, 10], [24, 11], [25, 12]] }

/-! ## Helper lemmas on lists -/

theorem getD_set_self {α : Type} (l : List α) (i : Nat) (a d : α) (h : i < l.length) :
    (l.set i a).getD i d = a := by
  induction l generalizing i with
  | nil => simp at h
  | cons x xs ih =>
    cases i with
    | zero => rfl
    | succ n => simpa using ih n (by simpa using h)

theorem getD_set_ne {α : Type} (l : List α) (i j : Nat) (a d : α) (h : i ≠ j) :
    (l.set i a).getD j d = l.getD j d := by
  simp [List.getD_eq_getElem?_getD, List.getElem?_set_ne h]

theorem getD_map_erase (l : List (List Nat)) (i j : Nat) :
    (l.map (fun t => t.erase i)).getD j [] = (l.getD j []).erase i := by
  induction l generalizing j with
  | nil => simp
  | cons x xs ih =>
    cases j with
    | zero => rfl
    | succ n => simpa using ih n

/-! ## Basic state-update lemmas -/

theorem bkt_setBuf (st : BCache) (i : Nat) (b : Buf) (j : Nat) :
    bkt (setBuf st i b) j = bkt st j := rfl

theorem bufs_length_setBuf (st : BCache) (i : Nat) (b : Buf) :
    (setBuf st i b).bufs.length = st.bufs.length := by
  simp [setBuf]

theorem buf_setBuf_self (st : BCache) (i : Nat) (b : Buf) (h : i < st.bufs.length) :
    buf (setBuf st i b) i = b := by
  unfold buf setBuf
  exact getD_set_self _ _ _ _ h

theorem buf_setBuf_ne (st : BCache) (i j : Nat) (b : Buf) (h : i ≠ j) :
    buf (setBuf st i b) j = buf st j := by
  unfold buf setBuf
  exact getD_set_ne _ _ _ _ _ h

theorem setBuf_oob (st : BCache) (i : Nat) (b : Buf) (h : st.bufs.length ≤ i) :
    setBuf st i b = st := by
  cases st
  unfold setBuf
  rw [List.set_eq_of_length_le h]

theorem buf_oob (st : BCache) (i : Nat) (h : st.bufs.length ≤ i) :
    buf st i = default := by
  unfold buf
  exact List.getD_eq_default _ _ h

theorem bkt_oob (st : BCache) (j : Nat) (h : st.buckets.length ≤ j) :
    bkt st j = [] := by
  unfold bkt
  exact List.getD_eq_default _ _ h

theorem bufs_moveFront (st : BCache) (idx i : Nat) :
    (moveFront st idx i).bufs = st.bufs := rfl

theorem bkt_moveFront_self (st : BCache) (idx i : Nat) (h : idx < st.buckets.length) :
    bkt (moveFront st idx i) idx = i :: (bkt st idx).erase i := by
  have h2 : idx < (st.buckets.map (fun t => t.erase i)).length := by simpa using h
  show ((st.buckets.map (fun t => t.erase i)).set idx
      (i :: (st.buckets.map (fun t => t.erase i)).getD idx [])).getD idx [] = _
  rw [getD_set_self _ _ _ _ h2, getD_map_erase]
  rfl

theorem bkt_moveFront_ne (st : BCache) (idx i j : Nat) (h : idx ≠ j) :
    bkt (moveFront st idx i) j = (bkt st j).erase i := by
  show ((st.buckets.map (fun t => t.erase i)).set idx
      (i :: (st.buckets.map (fun t => t.erase i)).getD idx [])).getD j [] = _
  rw [getD_set_ne _ _ _ _ _ h, getD_map_erase]
  rfl

/-! ## Scan-result extraction lemmas -/

theorem findHit_dev_blockno {st : BCache} {idx dev blockno b : Nat}
    (h : findHit st idx dev blockno = some b) :
    (buf st b).dev = dev ∧ (buf st b).blockno = blockno := by
  have := List.find?_some h
  simp at this
  exact this

theorem findHit_mem {st : BCache} {idx dev blockno b : Nat}
    (h : findHit st idx dev blockno = some b) : b ∈ bkt st idx :=
  List.mem_of_find?_eq_some h

theorem findFreeRev_refcnt {st : BCache} {idx b : Nat}
    (h : findFreeRev st idx = some b) : (buf st b).refcnt = 0 := by
  have := List.find?_some h
  simpa using this

theorem findFreeRev_mem {st : BCache} {idx b : Nat}
    (h : findFreeRev st idx = some b) : b ∈ bkt st idx := by
  have := List.mem_of_find?_eq_some h
  simpa using this

theorem findFreeFwd_refcnt {st : BCache} {idx b : Nat}
    (h : findFreeFwd st idx = some b) : (buf st b).refcnt = 0 := by
  have := List.find?_some h
  simpa using this

theorem findFreeFwd_mem {st : BCache} {idx b : Nat}
    (h : findFreeFwd st idx = some b) : b ∈ bkt st idx :=
  List.mem_of_find?_eq_some h

/-- If the forward free scan of bucket `idx` finds nothing, neither does the
backward one (they test the same predicate on the same list). -/
theorem findFreeRev_none_of_fwd_none {st : BCache} {idx : Nat}
    (h : findFreeFwd st idx = none) : findFreeRev st idx = none := by
  unfold findFreeFwd at h
  unfold findFreeRev
  rw [List.find?_eq_none] at h ⊢
  intro a ha
  exact h a (List.mem_reverse.mp ha)

/-- Whatever iteration the eviction loop stops at, the victim it reports was
produced by the backward free scan of bucket `idx` — the loop never scans any
other bucket's list. -/
theorem evictLoop_found {st : BCache} {idx : Nat} :
    ∀ {fuel i : Nat} {li : Bool} {held : List Nat} {fb b : Nat},
      (evictLoop st idx fuel i li held).1 = some (fb, b) → findFreeRev st idx = some b := by
  intro fuel
  induction fuel with
  | zero => intro i li held fb b h; simp [evictLoop] at h
  | succ n ih =>
    intro i li held fb b h
    rw [evictLoop] at h
    rcases hf : findFreeRev st idx with _ | b'
    · simp only [hf] at h
      split at h
      · exact hf ▸ ih h
      · exact hf ▸ ih h
    · rw [hf] at h
      have h3 : (i, b') = (fb, b) := Option.some.inj h
      have h4 : b' = b := congrArg Prod.snd h3
      rw [h4]

/-! ## Invariant preservation lemmas -/

theorem mod_nbucket_lt (n : Nat) : n % NBUCKET < NBUCKET :=
  Nat.mod_lt _ (by decide)

/-- Overwriting one buffer record preserves the structural invariant,
provided that if the new record claims the blocking lock, the buffer sits in
the bucket its (new) block number hashes to. -/
theorem Inv_setBuf (st : BCache) (i : Nat) (b : Buf) (hInv : Inv st)
    (hpl : b.lockHeld = true → i ∈ bkt st (b.blockno % NBUCKET)) :
    Inv (setBuf st i b) := by
  by_cases hlen : i < st.bufs.length
  · obtain ⟨h1, h2, h3, h4, h5, h6⟩ := hInv
    refine ⟨h1, h2, h3, ?_, ?_, ?_⟩
    · rw [bufs_length_setBuf]; exact h4
    · rw [bufs_length_setBuf]; exact h5
    · intro x hx hl
      rw [bufs_length_setBuf] at hx
      by_cases hxi : i = x
      · subst hxi
        rw [buf_setBuf_self st i b hlen] at hl ⊢
        exact hpl hl
      · rw [buf_setBuf_ne st i x b hxi] at hl ⊢
        exact h6 x hx hl
  · rw [setBuf_oob st i b (Nat.le_of_not_lt hlen)]
    exact hInv

/-- `findIdx` returns the position of the unique list containing `x`. -/
theorem findIdx_contains_eq (l : List (List Nat)) (x j : Nat)
    (hj : j < l.length) (hmem : x ∈ l.getD j [])
    (hothers : ∀ k, k < l.length → k ≠ j → x ∉ l.getD k []) :
    l.findIdx (fun t => decide (x ∈ t)) = j := by
  induction l generalizing j with
  | nil => simp at hj
  | cons a as ih =>
    cases j with
    | zero =>
      have : x ∈ a := hmem
      rw [List.findIdx_cons]
      simp [this]
    | succ m =>
      have hna : x ∉ a := hothers 0 (Nat.zero_lt_succ _) (by omega)
      rw [List.findIdx_cons]
      simp only [hna, decide_False, cond_false]
      have := ih m (by simpa using hj) hmem
        (fun k hk hkm => hothers (k + 1) (by simpa using hk) (by omega))
      omega

/-- Under the invariant, `bucketOf` names the bucket the buffer is in. -/
theorem bucketOf_eq (st : BCache) (i idx : Nat) (hInv : Inv st)
    (hidx : idx < NBUCKET) (hmem : i ∈ bkt st idx) :
    bucketOf st i = idx := by
  obtain ⟨h1, _, h3, _, _, _⟩ := hInv
  exact findIdx_contains_eq st.buckets i idx (h1 ▸ hidx) hmem
    (fun k hk hkne => h3 idx hidx k (h1 ▸ hk) (fun h => hkne h.symm) i hmem)

/-- Moving buffer `i` to the front of bucket `idx` (its own bucket: the one
its block number hashes to) preserves the structural invariant. -/
theorem Inv_moveFront (st : BCache) (i idx : Nat) (hInv : Inv st)
    (hi : i < st.bufs.length) (hidx : idx < NBUCKET) (hmem : i ∈ bkt st idx)
    (hbl : (buf st i).blockno % NBUCKET = idx) :
    Inv (moveFront st idx i) := by
  obtain ⟨h1, h2, h3, h4, h5, h6⟩ := hInv
  have hbl2 : idx < st.buckets.length := h1 ▸ hidx
  have hbkt : ∀ j, bkt (moveFront st idx i) j =
      if j = idx then i :: (bkt st idx).erase i else (bkt st j).erase i := by
    intro j
    by_cases hj : j = idx
    · subst hj
      rw [bkt_moveFront_self st j i hbl2, if_pos rfl]
    · rw [bkt_moveFront_ne st idx i j (fun h => hj h.symm), if_neg hj]
  have hlen : (moveFront st idx i).buckets.length = NBUCKET := by
    simp [moveFront, pushFront, unlink, h1]
  have hnotself : ∀ k, k < NBUCKET → i ∉ (bkt st k).erase i := by
    intro k hk hbad
    exact absurd rfl ((h2 k hk).mem_erase_iff.mp hbad).1
  refine ⟨hlen, ?_, ?_, ?_, ?_, ?_⟩
  · intro j hj
    rw [hbkt j]
    by_cases hji : j = idx
    · rw [if_pos hji]
      exact List.Nodup.cons (hnotself idx hidx) ((h2 idx hidx).erase i)
    · rw [if_neg hji]
      exact (h2 j hj).erase i
  · intro j hj k hk hjk x hxj hxk
    rw [hbkt j] at hxj
    rw [hbkt k] at hxk
    by_cases hji : j = idx
    · rw [if_pos hji] at hxj
      have hki : k ≠ idx := fun h => hjk (hji.trans h.symm)
      rw [if_neg hki] at hxk
      rcases List.mem_cons.mp hxj with hx1 | hx2
      · subst hx1
        exact hnotself k hk hxk
      · have hxidx : x ∈ bkt st idx := List.mem_of_mem_erase hx2
        exact h3 idx hidx k hk (fun h => hki h.symm) x hxidx (List.mem_of_mem_erase hxk)
    · rw [if_neg hji] at hxj
      have hxj2 : x ∈ bkt st j := List.mem_of_mem_erase hxj
      by_cases hki : k = idx
      · rw [if_pos hki] at hxk
        rcases List.mem_cons.mp hxk with hx1 | hx2
        · subst hx1
          exact hnotself j hj hxj
        · exact h3 j hj idx hidx (fun h => hji h) x hxj2 (List.mem_of_mem_erase hx2)
      · rw [if_neg hki] at hxk
        exact h3 j hj k hk hjk x hxj2 (List.mem_of_mem_erase hxk)
  · intro x hx
    rw [bufs_moveFront] at hx
    by_cases hxi : x = i
    · refine ⟨idx, hidx, ?_⟩
      rw [hbkt idx, if_pos rfl, hxi]
      exact List.mem_cons_self i _
    · obtain ⟨j, hj, hxj⟩ := h4 x hx
      refine ⟨j, hj, ?_⟩
      rw [hbkt j]
      by_cases hji : j = idx
      · rw [if_pos hji]
        exact List.mem_cons_of_mem i ((List.mem_erase_of_ne hxi).mpr (hji ▸ hxj))
      · rw [if_neg hji]
        exact (List.mem_erase_of_ne hxi).mpr hxj
  · intro j hj x hxj
    rw [bufs_moveFront]
    rw [hbkt j] at hxj
    by_cases hji : j = idx
    · rw [if_pos hji] at hxj
      rcases List.mem_cons.mp hxj with hx1 | hx2
      · subst hx1; exact hi
      · exact h5 idx hidx x (List.mem_of_mem_erase hx2)
    · rw [if_neg hji] at hxj
      exact h5 j hj x (List.mem_of_mem_erase hxj)
  · intro x hx hl
    rw [bufs_moveFront] at hx
    have hbx : buf (moveFront st idx i) x = buf st x := rfl
    rw [hbx] at hl ⊢
    have hx6 := h6 x hx hl
    rw [hbkt ((buf st x).blockno % NBUCKET)]
    by_cases hji : (buf st x).blockno % NBUCKET = idx
    · rw [if_pos hji]
      by_cases hxi : x = i
      · rw [hxi]; exact List.mem_cons_self i _
      · exact List.mem_cons_of_mem i ((List.mem_erase_of_ne hxi).mpr (hji ▸ hx6))
    · rw [if_neg hji]
      have hxi : x ≠ i := by
        intro h
        subst h
        exact hji hbl
      exact (List.mem_erase_of_ne hxi).mpr hx6

/-- The common shape of every successful `bget` return: one buffer record is
overwritten (to `B`) and its blocking lock is then acquired.  If the buffer
sits in the bucket `B`'s block number hashes to, the invariant survives. -/
theorem Inv_allocLike (st : BCache) (b : Nat) (B : Buf) (hInv : Inv st)
    (hmem : b ∈ bkt st (B.blockno % NBUCKET)) :
    Inv (acquireSleep (setBuf st b B) b) := by
  have hblen : b < st.bufs.length :=
    hInv.2.2.2.2.1 _ (mod_nbucket_lt _) b hmem
  have hInv1 : Inv (setBuf st b B) := Inv_setBuf st b B hInv (fun _ => hmem)
  have hbufeq : buf (setBuf st b B) b = B := buf_setBuf_self st b B hblen
  unfold acquireSleep
  apply Inv_setBuf _ _ _ hInv1
  intro _
  rw [hbufeq]
  exact hmem

/-- In a (sequential) execution, `bget` never migrates a buffer across
buckets: the eviction scan only ever inspects the target bucket's own list
(bio.c line 116 scans `bkt[idx]`, not `bkt[i]`), so any victim it reports is
already in the target bucket — but then the same-bucket free scan that ran
just before the eviction path would have succeeded.  Consequently `bget`
preserves the structural invariant, performs no bucket-list membership
change, and leaves every bucket list unchanged. -/
theorem bget_no_migration (dev blockno : Nat) (st : BCache) (hInv : Inv st) :
    Inv (bget dev blockno st).2.1 ∧ (bget dev blockno st).2.2 = [] ∧
    (bget dev blockno st).2.1.buckets = st.buckets := by
  unfold bget
  rcases hh : findHit st (blockno % NBUCKET) dev blockno with _ | b
  · simp only [hh]
    rcases hr : findFreeRev st (blockno % NBUCKET) with _ | b
    · simp only [hr]
      rcases hE : evictLoop st (blockno % NBUCKET) NBUCKET 0 false [] with ⟨found, li, held⟩
      simp only [hE]
      by_cases hif : li = false ∧ 0 ∈ held
      · rw [if_pos hif]
        exact ⟨hInv, by trivial, by trivial⟩
      · rw [if_neg hif]
        rcases found with _ | ⟨fb, fbuf⟩
        · simp only [hh]
          rcases hf2 : findFreeFwd st (blockno % NBUCKET) with _ | b2
          · simp only [hf2]
            exact ⟨hInv, by trivial, by trivial⟩
          · simp only [hf2]
            exact ⟨Inv_allocLike st b2 _ hInv (findFreeFwd_mem hf2), by trivial, by trivial⟩
        · exfalso
          have h1 : (evictLoop st (blockno % NBUCKET) NBUCKET 0 false []).1 =
              some (fb, fbuf) := by rw [hE]
          have h2 := evictLoop_found h1
          rw [hr] at h2
          exact Option.noConfusion h2
    · simp only [hr]
      exact ⟨Inv_allocLike st b _ hInv (findFreeRev_mem hr), by trivial, by trivial⟩
  · simp only [hh]
    have hdb := findHit_dev_blockno hh
    have hm := findHit_mem hh
    refine ⟨Inv_allocLike st b _ hInv ?_, by trivial, by trivial⟩
    have he : (incRef (buf st b)).blockno = blockno := hdb.2
    rw [he]
    exact hm

theorem incRef_lockHeld (b : Buf) : (incRef b).lockHeld = b.lockHeld := by
  cases b
  rfl

theorem incRef_blockno (b : Buf) : (incRef b).blockno = b.blockno := by
  cases b
  rfl

theorem decRef_lockHeld (b : Buf) : (decRef b).lockHeld = b.lockHeld := by
  cases b
  rfl

theorem decRef_blockno (b : Buf) : (decRef b).blockno = b.blockno := by
  cases b
  rfl

theorem setLock_blockno (b : Buf) (v : Bool) :
    ({ b with lockHeld := v } : Buf).blockno = b.blockno := by
  cases b
  rfl

theorem setLock_lockHeld (b : Buf) (v : Bool) :
    ({ b with lockHeld := v } : Buf).lockHeld = v := by
  cases b
  rfl

/-- A buffer whose blocking lock is held is a real buffer (the out-of-range
default record has the lock free). -/
theorem lockHeld_lt (st : BCache) (i : Nat) (hl : (buf st i).lockHeld = true) :
    i < st.bufs.length := by
  by_contra h
  rw [buf_oob st i (Nat.le_of_not_lt h)] at hl
  exact Bool.noConfusion hl

/-- Updating one buffer record without changing its block number or its
blocking-lock state preserves the structural invariant. -/
theorem Inv_refOnly (st : BCache) (i : Nat) (hInv : Inv st) (b : Buf)
    (hlk : b.lockHeld = (buf st i).lockHeld) (hbl : b.blockno = (buf st i).blockno) :
    Inv (setBuf st i b) := by
  apply Inv_setBuf st i b hInv
  intro h
  rw [hlk] at h
  by_cases hi : i < st.bufs.length
  · rw [hbl]
    exact hInv.2.2.2.2.2 i hi h
  · rw [buf_oob st i (Nat.le_of_not_lt hi)] at h
    exact Bool.noConfusion h

/-- Unfolding of `brelse` when the blocking lock is held. -/
theorem brelse_eq_of_held (st : BCache) (i : Nat) (hl : (buf st i).lockHeld = true) :
    brelse i st =
      if (decRef { buf st i with lockHeld := false }).refcnt = 0 then
        (Except.ok (),
         moveFront (setBuf st i (decRef { buf st i with lockHeld := false }))
           ((buf st i).blockno % NBUCKET) i,
         [{ buffer := i, src := bucketOf st i, dst := (buf st i).blockno % NBUCKET,
            locks := [(buf st i).blockno % NBUCKET], evict := false }])
      else (Except.ok (), setBuf st i (decRef { buf st i with lockHeld := false }), []) := by
  unfold brelse
  rw [if_pos hl]

/-- Unfolding of `brelse` when the blocking lock is not held: panic, no state
change. -/
theorem brelse_eq_of_not_held (st : BCache) (i : Nat)
    (hl : (buf st i).lockHeld = false) :
    brelse i st = (Except.error "brelse", st, []) := by
  unfold brelse
  rw [if_neg (by rw [hl]; exact fun h => Bool.noConfusion h)]

theorem nodupB_sound : ∀ l : List Nat, nodupB l = true → l.Nodup := by
  intro l
  induction l with
  | nil => intro _; exact List.nodup_nil
  | cons x xs ih =>
    intro h
    rw [nodupB, Bool.and_eq_true] at h
    refine List.Nodup.cons ?_ (ih h.2)
    intro hmem
    have h1 := h.1
    rw [Bool.not_eq_true'] at h1
    have h2 : xs.contains x = true := List.elem_iff.mpr hmem
    rw [h1] at h2
    exact Bool.noConfusion h2

/-- The Boolean check implies the structural invariant. -/
theorem invCheck_sound (st : BCache) (h : invCheck st = true) : Inv st := by
  unfold invCheck at h
  rw [Bool.and_eq_true, Bool.and_eq_true, Bool.and_eq_true, Bool.and_eq_true,
    Bool.and_eq_true] at h
  obtain ⟨⟨⟨⟨⟨h1, h2⟩, h3⟩, h4⟩, h5⟩, h6⟩ := h
  refine ⟨beq_iff_eq.mp h1, ?_, ?_, ?_, ?_, ?_⟩
  · intro j hj
    exact nodupB_sound _ (List.all_eq_true.mp h2 j (List.mem_range.mpr hj))
  · intro j hj k hk hjk i hij hik
    have hx := List.all_eq_true.mp (List.all_eq_true.mp h3 j (List.mem_range.mpr hj))
      k (List.mem_range.mpr hk)
    rw [Bool.or_eq_true] at hx
    rcases hx with he | hall
    · exact hjk (beq_iff_eq.mp he)
    · have hni := List.all_eq_true.mp hall i hij
      rw [Bool.not_eq_true'] at hni
      have h7 : (bkt st k).contains i = true := List.elem_iff.mpr hik
      rw [hni] at h7
      exact Bool.noConfusion h7
  · intro i hi
    have hx := List.all_eq_true.mp h4 i (List.mem_range.mpr hi)
    rw [List.any_eq_true] at hx
    obtain ⟨j, hj, hcon⟩ := hx
    exact ⟨j, List.mem_range.mp hj, List.elem_iff.mp hcon⟩
  · intro j hj i hi
    exact of_decide_eq_true (List.all_eq_true.mp
      (List.all_eq_true.mp h5 j (List.mem_range.mpr hj)) i hi)
  · intro i hi hl
    have hx := List.all_eq_true.mp h6 i (List.mem_range.mpr hi)
    rw [Bool.or_eq_true] at hx
    rcases hx with hneg | hcon
    · rw [Bool.not_eq_true'] at hneg
      rw [hl] at hneg
      exact Bool.noConfusion hneg
    · exact List.elem_iff.mp hcon

/-- The boot state evaluates to its literal form (one kernel evaluation of
`binit`). -/
theorem binitState_eq_lit : binitState = binitLit := by
  decide

/-- The scenario state evaluates to its literal form (one kernel evaluation
of the three `bread`s). -/
theorem c1State_eq_lit : c1State = c1Lit := by
  decide

/-- The structural invariant holds at boot. -/
theorem Inv_binit : Inv binitState :=
  invCheck_sound binitState (by rw [binitState_eq_lit]; decide)

/-- C2: Every buffer is a member of exactly one bucket's list at all times —
the structural invariant `Inv` (13 pairwise-disjoint duplicate-free bucket
lists covering every buffer) holds of the boot state and is preserved by
every operation, including when buffers are free — and every bucket-list
membership change happens only while that bucket's spinlock is held: any
bucket whose list an operation changes appears in the lock set of one of the
operation's membership-change events, and any event that moves a buffer
across buckets (source ≠ destination) carries the eviction lock (in `bget`
the migration splice is only ever reached holding both bucket locks; in a
sequential execution it is in fact unreachable, since the eviction scan only
inspects the target bucket). -/
theorem bucket_membership_locking :
    Inv binitState ∧
    ∀ (op : Op) (st : BCache), Inv st →
      Inv (applyOp op st).1 ∧
      (∀ j, bkt (applyOp op st).1 j ≠ bkt st j → ∃ e ∈ (applyOp op st).2, j ∈ e.locks) ∧
      (∀ e ∈ (applyOp op st).2,
        e.src ∈ e.locks ∧ e.dst ∈ e.locks ∧ (e.src ≠ e.dst → e.evict = true)) := by
  constructor
  · exact Inv_binit
  · intro op st hInv
    match op with
    | Op.get dev blockno =>
      obtain ⟨hI, hev, hbk⟩ := bget_no_migration dev blockno st hInv
      refine ⟨hI, ?_, ?_⟩
      · intro j hj
        exfalso
        apply hj
        show (bget dev blockno st).2.1.buckets.getD j [] = st.buckets.getD j []
        rw [hbk]
      · intro e he
        rw [show (applyOp (Op.get dev blockno) st).2 = (bget dev blockno st).2.2 from rfl,
          hev] at he
        exact absurd he (List.not_mem_nil e)
    | Op.relse i =>
      by_cases hl : (buf st i).lockHeld = true
      · have hi : i < st.bufs.length := lockHeld_lt st i hl
        have hB := brelse_eq_of_held st i hl
        have hidx : (buf st i).blockno % NBUCKET < NBUCKET := mod_nbucket_lt _
        have hmem : i ∈ bkt st ((buf st i).blockno % NBUCKET) :=
          hInv.2.2.2.2.2 i hi hl
        have hInv1 : Inv (setBuf st i (decRef { buf st i with lockHeld := false })) :=
          Inv_setBuf st i _ hInv (fun h => Bool.noConfusion h)
        by_cases hz : (decRef { buf st i with lockHeld := false }).refcnt = 0
        · have happ : applyOp (Op.relse i) st =
              (moveFront (setBuf st i (decRef { buf st i with lockHeld := false }))
                ((buf st i).blockno % NBUCKET) i,
               [{ buffer := i, src := bucketOf st i, dst := (buf st i).blockno % NBUCKET,
                  locks := [(buf st i).blockno % NBUCKET], evict := false }]) := by
            show ((brelse i st).2.1, (brelse i st).2.2) = _
            rw [hB, if_pos hz]
          rw [happ]
          have hsrc : bucketOf st i = (buf st i).blockno % NBUCKET :=
            bucketOf_eq st i _ hInv hidx hmem
          refine ⟨?_, ?_, ?_⟩
          · apply Inv_moveFront _ i _ hInv1
            · rw [bufs_length_setBuf]
              exact hi
            · exact hidx
            · exact hmem
            · rw [buf_setBuf_self st i _ hi, decRef_blockno, setLock_blockno]
          · intro j hj
            by_cases hji : j = (buf st i).blockno % NBUCKET
            · refine ⟨_, List.mem_cons_self _ _, ?_⟩
              rw [hji]
              exact List.mem_cons_self _ _
            · exfalso
              apply hj
              rw [bkt_moveFront_ne _ _ i j (fun h => hji h.symm)]
              show (bkt st j).erase i = bkt st j
              apply List.erase_of_not_mem
              by_cases hjN : j < NBUCKET
              · exact hInv.2.2.1 _ hidx j hjN (fun h => hji h.symm) i hmem
              · rw [bkt_oob st j (by rw [hInv.1]; exact Nat.le_of_not_lt hjN)]
                exact List.not_mem_nil i
          · intro e he
            rw [List.mem_singleton] at he
            subst he
            refine ⟨?_, ?_, ?_⟩
            · show bucketOf st i ∈ [(buf st i).blockno % NBUCKET]
              rw [hsrc]
              exact List.mem_cons_self _ _
            · exact List.mem_cons_self _ _
            · intro hne
              exfalso
              apply hne
              show bucketOf st i = (buf st i).blockno % NBUCKET
              exact hsrc
        · have happ : applyOp (Op.relse i) st =
              (setBuf st i (decRef { buf st i with lockHeld := false }), []) := by
            show ((brelse i st).2.1, (brelse i st).2.2) = _
            rw [hB, if_neg hz]
          rw [happ]
          refine ⟨hInv1, ?_, ?_⟩
          · intro j hj
            exact absurd rfl hj
          · intro e he
            exact absurd he (List.not_mem_nil e)
      · have hl2 : (buf st i).lockHeld = false := Bool.eq_false_iff.mpr hl
        have happ : applyOp (Op.relse i) st = (st, []) := by
          show ((brelse i st).2.1, (brelse i st).2.2) = _
          rw [brelse_eq_of_not_held st i hl2]
        rw [happ]
        refine ⟨hInv, ?_, ?_⟩
        · intro j hj
          exact absurd rfl hj
        · intro e he
          exact absurd he (List.not_mem_nil e)
    | Op.pin i =>
      refine ⟨?_, ?_, ?_⟩
      · show Inv (setBuf st i (incRef (buf st i)))
        exact Inv_refOnly st i hInv (incRef (buf st i)) (incRef_lockHeld _) (incRef_blockno _)
      · intro j hj
        exact absurd rfl hj
      · intro e he
        exact absurd he (List.not_mem_nil e)
    | Op.unpin i =>
      refine ⟨?_, ?_, ?_⟩
      · show Inv (setBuf st i (decRef (buf st i)))
        exact Inv_refOnly st i hInv (decRef (buf st i)) (decRef_lockHeld _) (decRef_blockno _)
      · intro j hj
        exact absurd rfl hj
      · intro e he
        exact absurd he (List.not_mem_nil e)

theorem setLock_dev (b : Buf) (v : Bool) :
    ({ b with lockHeld := v } : Buf).dev = b.dev := by
  cases b
  rfl

theorem setLock_valid (b : Buf) (v : Bool) :
    ({ b with lockHeld := v } : Buf).valid = b.valid := by
  cases b
  rfl

theorem incRef_dev (b : Buf) : (incRef b).dev = b.dev := by
  cases b
  rfl

theorem incRef_valid (b : Buf) : (incRef b).valid = b.valid := by
  cases b
  rfl

theorem buf_allocLike_ne (st : BCache) (b : Nat) (B : Buf) (j : Nat) (hne : b ≠ j) :
    buf (acquireSleep (setBuf st b B) b) j = buf st j := by
  unfold acquireSleep
  rw [buf_setBuf_ne _ _ _ _ hne, buf_setBuf_ne _ _ _ _ hne]

theorem buf_allocLike_self (st : BCache) (b : Nat) (B : Buf) (hb : b < st.bufs.length) :
    buf (acquireSleep (setBuf st b B) b) b = { B with lockHeld := true } := by
  unfold acquireSleep
  rw [buf_setBuf_self _ _ _ (by rw [bufs_length_setBuf]; exact hb),
    buf_setBuf_self _ _ _ hb]

/-- If the `bget` return shape (overwrite buffer `b`, then lock it) changed
the device, block number or validity of buffer `i`, then `i` is `b` itself
and is a real buffer. -/
theorem allocLike_changes (st : BCache) (b : Nat) (B : Buf) (i : Nat)
    (hch : (buf (acquireSleep (setBuf st b B) b) i).dev ≠ (buf st i).dev ∨
           (buf (acquireSleep (setBuf st b B) b) i).blockno ≠ (buf st i).blockno ∨
           (buf (acquireSleep (setBuf st b B) b) i).valid ≠ (buf st i).valid) :
    i = b ∧ b < st.bufs.length := by
  by_cases hbi : b = i
  · subst hbi
    by_cases hlen : b < st.bufs.length
    · exact ⟨rfl, hlen⟩
    · exfalso
      have hs : setBuf st b B = st := setBuf_oob st b B (Nat.le_of_not_lt hlen)
      have hs2 : acquireSleep (setBuf st b B) b = st := by
        rw [hs]
        unfold acquireSleep
        exact setBuf_oob st b _ (Nat.le_of_not_lt hlen)
      rw [hs2] at hch
      rcases hch with h | h | h <;> exact h rfl
  · rw [buf_allocLike_ne st b B i hbi] at hch
    rcases hch with h | h | h <;> exact absurd rfl h

/-- C3: a buffer is never repurposed while in use — every code path of
`bget` that overwrites a buffer's device, block number or validity flag acts
on a buffer whose reference count was 0 at that point: if `bget` changed any
of those three fields of buffer `i`, then buffer `i` had reference count 0
before the call. -/
theorem bget_repurpose_only_free (st : BCache) (dev blockno i : Nat)
    (hch : (buf (bget dev blockno st).2.1 i).dev ≠ (buf st i).dev ∨
           (buf (bget dev blockno st).2.1 i).blockno ≠ (buf st i).blockno ∨
           (buf (bget dev blockno st).2.1 i).valid ≠ (buf st i).valid) :
    (buf st i).refcnt = 0 := by
  unfold bget at hch
  rcases hh : findHit st (blockno % NBUCKET) dev blockno with _ | b
  · simp only [hh] at hch
    rcases hr : findFreeRev st (blockno % NBUCKET) with _ | b
    · simp only [hr] at hch
      rcases hE : evictLoop st (blockno % NBUCKET) NBUCKET 0 false [] with ⟨found, li, held⟩
      simp only [hE] at hch
      by_cases hif : li = false ∧ 0 ∈ held
      · rw [if_pos hif] at hch
        rcases hch with h | h | h <;> exact absurd rfl h
      · rw [if_neg hif] at hch
        rcases found with _ | ⟨fb, fbuf⟩
        · simp only [hh] at hch
          rcases hf2 : findFreeFwd st (blockno % NBUCKET) with _ | b2
          · simp only [hf2] at hch
            rcases hch with h | h | h <;> exact absurd rfl h
          · simp only [hf2] at hch
            obtain ⟨rfl, _⟩ := allocLike_changes st b2 _ i hch
            exact findFreeFwd_refcnt hf2
        · exfalso
          have h1 : (evictLoop st (blockno % NBUCKET) NBUCKET 0 false []).1 =
              some (fb, fbuf) := by rw [hE]
          have h2 := evictLoop_found h1
          rw [hr] at h2
          exact Option.noConfusion h2
    · simp only [hr] at hch
      obtain ⟨rfl, _⟩ := allocLike_changes st b _ i hch
      exact findFreeRev_refcnt hr
  · simp only [hh] at hch
    obtain ⟨rfl, hlen⟩ := allocLike_changes st b _ i hch
    exfalso
    rw [buf_allocLike_self st i _ hlen] at hch
    rcases hch with h | h | h
    · rw [setLock_dev, incRef_dev] at h
      exact h rfl
    · rw [setLock_blockno, incRef_blockno] at h
      exact h rfl
    · rw [setLock_valid, incRef_valid] at h
      exact h rfl

/-- `breadSeq` over an appended block list: if the first block runs without
a panic, the second continues from the state the first left. -/
theorem breadSeq_append (disk : Nat → Nat → Nat) (l1 l2 : List Nat) (st : BCache)
    (h : (breadSeq disk l1 st).2.1 = none) :
    breadSeq disk (l1 ++ l2) st =
      ((breadSeq disk l1 st).1 ++ (breadSeq disk l2 ((breadSeq disk l1 st).2.2)).1,
       (breadSeq disk l2 ((breadSeq disk l1 st).2.2)).2.1,
       (breadSeq disk l2 ((breadSeq disk l1 st).2.2)).2.2) := by
  induction l1 generalizing st with
  | nil =>
    simp [breadSeq]
  | cons n ns ih =>
    rcases hb : bread 1 n disk st with e | ⟨b, st1, ops⟩
    · rw [breadSeq] at h
      simp only [hb] at h
      exact Option.noConfusion h
    · have hcons : ∀ l : List Nat, breadSeq disk (n :: l) st =
          (b :: (breadSeq disk l st1).1, (breadSeq disk l st1).2.1,
           (breadSeq disk l st1).2.2) := by
        intro l
        rw [breadSeq]
        simp only [hb]
      have hns : (breadSeq disk ns st1).2.1 = none := by
        rw [hcons ns] at h
        exact h
      show breadSeq disk (n :: (ns ++ l2)) st = _
      rw [hcons (ns ++ l2), hcons ns, ih st1 hns]
      dsimp only
      rw [List.cons_append]

/-- Stage 1 of the C4 scenario: `bread(1, 0..9)` from boot. -/
theorem breadSeq_stage1 :
    breadSeq disk0 [0, 1, 2, 3, 4, 5, 6, 7, 8, 9] binitState =
      ([0, 1, 2, 3, 4, 5, 6, 7, 8, 9], none, stageState 10) := by
  decide

/-- Stage 2: `bread(1, 10..19)`. -/
theorem breadSeq_stage2 :
    breadSeq disk0 [10, 11, 12, 13, 14, 15, 16, 17, 18, 19] (stageState 10) =
      ([10, 11, 12, 13, 14, 15, 16, 17, 18, 19], none, stageState 20) := by
  decide

/-- Stage 3: `bread(1, 20..29)`. -/
theorem breadSeq_stage3 :
    breadSeq disk0 [20, 21, 22, 23, 24, 25, 26, 27, 28, 29] (stageState 20) =
      ([20, 21, 22, 23, 24, 25, 26, 27, 28, 29], none, stageState 30) := by
  decide

/-- Stage 4: all 30 buffers pinned, the call for block 30 panics at once. -/
theorem breadSeq_stage4 :
    breadSeq disk0 [30, 31, 32, 33, 34, 35, 36, 37, 38, 39] (stageState 30) =
      ([], some "bget: no buffers", stageState 30) := by
  decide

/-- C4: with 13 buckets and 30 buffers, `bread`ing 40 distinct blocks of
device 1 (block numbers 0..39, in order) with no intervening `brelse`
completes exactly 30 calls, which return 30 pairwise distinct buffers, and
the 31st call hits the resource-exhaustion panic of `bget`. -/
theorem bread_forty_distinct_exhaustion :
    (breadSeq disk0 (List.range 40) binitState).1.length = 30 ∧
    (breadSeq disk0 (List.range 40) binitState).1.Nodup ∧
    (breadSeq disk0 (List.range 40) binitState).2.1 = some "bget: no buffers" := by
  have hr : List.range 40 =
      [0, 1, 2, 3, 4, 5, 6, 7, 8, 9] ++
        ([10, 11, 12, 13, 14, 15, 16, 17, 18, 19] ++
          ([20, 21, 22, 23, 24, 25, 26, 27, 28, 29] ++
            [30, 31, 32, 33, 34, 35, 36, 37, 38, 39])) := by decide
  rw [hr, breadSeq_append disk0 _ _ binitState (by rw [breadSeq_stage1]),
    breadSeq_stage1]
  dsimp only
  rw [breadSeq_append disk0 _ _ (stageState 10) (by rw [breadSeq_stage2]),
    breadSeq_stage2]
  dsimp only
  rw [breadSeq_append disk0 _ _ (stageState 20) (by rw [breadSeq_stage3]),
    breadSeq_stage3, breadSeq_stage4]
  refine ⟨by decide, by decide, by decide⟩

/-- C1: the eviction scan does not do what the claim says.  From boot,
`bread(1,1); bread(1,14); bread(1,27)` pins all three buffers of bucket 1;
a further `bget(1, 40)` (bucket 40 mod 13 = 1) takes the cross-bucket
eviction path.  Buffer 0 sits in bucket 0 with reference count 0, so the
claimed scan ("for each bucket i, scan bucket i's own list, stop at the
first free buffer, end holding that bucket's lock and the target's") would
stop at bucket 0 with buffer 0 and succeed.  The code instead scans the
target bucket's list at every iteration (bio.c line 116 uses `idx`, not
`i`), finds nothing, ends holding only the target bucket's lock, and panics
"bget: no buffers" although 27 buffers are free. -/
theorem bget_eviction_scan_divergence :
    (bget 1 40 c1State).1 = Except.error "bget: no buffers" ∧
    (buf c1State 0).refcnt = 0 ∧ 0 ∈ bkt c1State 0 ∧
    (evictLoop c1State 1 NBUCKET 0 false []).1 = none ∧
    (evictLoop c1State 1 NBUCKET 0 false []).2.2 = [1] := by
  rw [c1State_eq_lit]
  refine ⟨by rfl, by decide, by decide, by decide, by decide⟩

/-! ## brelse, bwrite, bpin, bunpin: functional characterization -/

theorem buf_moveFront (st : BCache) (idx i j : Nat) :
    buf (moveFront st idx i) j = buf st j := by
  cases st
  rfl

theorem setLock_refcnt (b : Buf) (v : Bool) :
    ({ b with lockHeld := v } : Buf).refcnt = b.refcnt := by
  cases b
  rfl

theorem decRef_setLock (b : Buf) :
    decRef { b with lockHeld := false } =
      { b with lockHeld := false, refcnt := (b.refcnt + (U32 - 1)) % U32 } := by
  cases b
  rfl

theorem setLockRef_refcnt (b : Buf) (v : Bool) (r : Nat) :
    ({ b with lockHeld := v, refcnt := r } : Buf).refcnt = r := by
  cases b
  rfl

theorem incRef_eq (b : Buf) :
    incRef b = { b with refcnt := (b.refcnt + 1) % U32 } := by
  cases b
  rfl

theorem decRef_eq (b : Buf) :
    decRef b = { b with refcnt := (b.refcnt + (U32 - 1)) % U32 } := by
  cases b
  rfl

theorem setRef_refcnt (b : Buf) (r : Nat) :
    ({ b with refcnt := r } : Buf).refcnt = r := by
  cases b
  rfl

/-- C8: `brelse` panics exactly when the caller does not hold the buffer's
blocking lock; when it is held, it releases the lock, decrements the
reference count by one (32-bit unsigned), and — exactly when the count
reaches 0 — moves the buffer to the most-recently-used (front) end of its
bucket's list, leaving every other bucket list untouched; when the count
stays nonzero every bucket list is unchanged; no other buffer is touched. -/
theorem brelse_spec (st : BCache) (i : Nat) (hInv : Inv st) :
    ((buf st i).lockHeld = false → brelse i st = (Except.error "brelse", st, [])) ∧
    ((buf st i).lockHeld = true →
      (brelse i st).1 = Except.ok () ∧
      buf (brelse i st).2.1 i =
        { buf st i with lockHeld := false,
                        refcnt := ((buf st i).refcnt + (U32 - 1)) % U32 } ∧
      (∀ j, j ≠ i → buf (brelse i st).2.1 j = buf st j) ∧
      (((buf st i).refcnt + (U32 - 1)) % U32 = 0 →
        bkt (brelse i st).2.1 ((buf st i).blockno % NBUCKET) =
          i :: (bkt st ((buf st i).blockno % NBUCKET)).erase i ∧
        (∀ j, j ≠ (buf st i).blockno % NBUCKET → bkt (brelse i st).2.1 j = bkt st j)) ∧
      (((buf st i).refcnt + (U32 - 1)) % U32 ≠ 0 →
        ∀ j, bkt (brelse i st).2.1 j = bkt st j)) := by
  constructor
  · exact brelse_eq_of_not_held st i
  · intro hl
    have hi : i < st.bufs.length := lockHeld_lt st i hl
    have hB := brelse_eq_of_held st i hl
    have hrc : (decRef { buf st i with lockHeld := false }).refcnt =
        ((buf st i).refcnt + (U32 - 1)) % U32 := by
      rw [decRef_setLock, setLockRef_refcnt]
    have hidx : (buf st i).blockno % NBUCKET < NBUCKET := mod_nbucket_lt _
    have hmem : i ∈ bkt st ((buf st i).blockno % NBUCKET) := hInv.2.2.2.2.2 i hi hl
    by_cases hz : ((buf st i).refcnt + (U32 - 1)) % U32 = 0
    · have hz2 : (decRef { buf st i with lockHeld := false }).refcnt = 0 := by
        rw [hrc]
        exact hz
      rw [hB, if_pos hz2]
      refine ⟨rfl, ?_, ?_, ?_, ?_⟩
      · show buf (moveFront (setBuf st i (decRef { buf st i with lockHeld := false }))
            ((buf st i).blockno % NBUCKET) i) i = _
        rw [buf_moveFront, buf_setBuf_self st i _ hi, decRef_setLock]
      · intro j hj
        show buf (moveFront (setBuf st i (decRef { buf st i with lockHeld := false }))
            ((buf st i).blockno % NBUCKET) i) j = buf st j
        rw [buf_moveFront]
        exact buf_setBuf_ne st i j _ (fun h => hj h.symm)
      · intro _
        have hbl2 : (buf st i).blockno % NBUCKET <
            (setBuf st i (decRef { buf st i with lockHeld := false })).buckets.length := by
          have hsb : (setBuf st i (decRef { buf st i with lockHeld := false })).buckets =
              st.buckets := rfl
          rw [hsb, hInv.1]
          exact hidx
        constructor
        · show bkt (moveFront (setBuf st i (decRef { buf st i with lockHeld := false }))
              ((buf st i).blockno % NBUCKET) i) ((buf st i).blockno % NBUCKET) = _
          rw [bkt_moveFront_self _ _ i hbl2]
          rfl
        · intro j hj
          show bkt (moveFront (setBuf st i (decRef { buf st i with lockHeld := false }))
              ((buf st i).blockno % NBUCKET) i) j = bkt st j
          rw [bkt_moveFront_ne _ _ i j (fun h => hj h.symm)]
          show (bkt st j).erase i = bkt st j
          apply List.erase_of_not_mem
          by_cases hjN : j < NBUCKET
          · exact hInv.2.2.1 _ hidx j hjN (fun h => hj h.symm) i hmem
          · rw [bkt_oob st j (by rw [hInv.1]; exact Nat.le_of_not_lt hjN)]
            exact List.not_mem_nil i
      · intro hz3
        exact absurd hz hz3
    · have hz2 : ¬ (decRef { buf st i with lockHeld := false }).refcnt = 0 := by
        rw [hrc]
        exact hz
      rw [hB, if_neg hz2]
      refine ⟨rfl, ?_, ?_, ?_, ?_⟩
      · show buf (setBuf st i (decRef { buf st i with lockHeld := false })) i = _
        rw [buf_setBuf_self st i _ hi, decRef_setLock]
      · intro j hj
        show buf (setBuf st i (decRef { buf st i with lockHeld := false })) j = buf st j
        exact buf_setBuf_ne st i j _ (fun h => hj h.symm)
      · intro hz3
        exact absurd hz3 hz
      · intro _ j
        show bkt (setBuf st i (decRef { buf st i with lockHeld := false })) j = bkt st j
        rfl

/-- C9: `bwrite` panics exactly when the caller does not hold the buffer's
blocking lock; when it is held, it issues exactly one synchronous device
write of the buffer's payload and changes nothing: the state returned is the
input state itself (lock still held, reference count untouched). -/
theorem bwrite_spec (st : BCache) (i : Nat) :
    ((buf st i).lockHeld = false → bwrite i st = Except.error "bwrite") ∧
    ((buf st i).lockHeld = true →
      bwrite i st =
        Except.ok (st, [DiskOp.write (buf st i).dev (buf st i).blockno (buf st i).data])) := by
  constructor
  · intro h
    unfold bwrite
    rw [if_neg (by rw [h]; exact fun hc => Bool.noConfusion hc)]
  · intro h
    unfold bwrite
    rw [if_pos h]

/-- C10: `bpin` and `bunpin` change exactly the reference count of their
buffer — `bpin` adds one, `bunpin` subtracts one (32-bit unsigned, so
`bunpin` at count 0 wraps to 2^32 - 1) — and nothing else: device, block
number, validity, lock, payload (all other fields of the record update are
inherited), every other buffer, and every bucket list (hence the buffer's
list position) are untouched; neither operation tests the count or can
panic (both are total functions with a single unconditional path). -/
theorem bpin_bunpin_spec (st : BCache) (i : Nat) (hi : i < st.bufs.length) :
    buf (bpin i st) i = { buf st i with refcnt := ((buf st i).refcnt + 1) % U32 } ∧
    buf (bunpin i st) i =
      { buf st i with refcnt := ((buf st i).refcnt + (U32 - 1)) % U32 } ∧
    (∀ j, j ≠ i → buf (bpin i st) j = buf st j ∧ buf (bunpin i st) j = buf st j) ∧
    (bpin i st).buckets = st.buckets ∧
    (bunpin i st).buckets = st.buckets ∧
    ((buf st i).refcnt = 0 → (buf (bunpin i st) i).refcnt = U32 - 1) := by
  have hU : 0 < U32 := by
    unfold U32
    norm_num
  refine ⟨?_, ?_, ?_, rfl, rfl, ?_⟩
  · show buf (setBuf st i (incRef (buf st i))) i = _
    rw [buf_setBuf_self st i _ hi, incRef_eq]
  · show buf (setBuf st i (decRef (buf st i))) i = _
    rw [buf_setBuf_self st i _ hi, decRef_eq]
  · intro j hj
    exact ⟨buf_setBuf_ne st i j _ (fun h => hj h.symm),
           buf_setBuf_ne st i j _ (fun h => hj h.symm)⟩
  · intro h0
    show (buf (setBuf st i (decRef (buf st i))) i).refcnt = _
    rw [buf_setBuf_self st i _ hi, decRef_eq, setRef_refcnt, h0, Nat.zero_add]
    exact Nat.mod_eq_of_lt (Nat.sub_lt hU Nat.one_pos)

/-! ## Frame allocator lemmas -/

/-- What a successful donor scan guarantees: the donor is a different core
with nonzero count, lies in the scanned window, and every earlier scanned
core other than the local one had count 0. -/
theorem findDonorLoop_some {st : KState} {id : Nat} :
    ∀ {fuel i f : Nat}, findDonorLoop st id fuel i = some f →
      f ≠ id ∧ (kcpu st f).freepg_cnt ≠ 0 ∧ i ≤ f ∧ f < i + fuel ∧
      (∀ j, i ≤ j → j < f → j ≠ id → (kcpu st j).freepg_cnt = 0) := by
  intro fuel
  induction fuel with
  | zero =>
    intro i f h
    simp [findDonorLoop] at h
  | succ m ih =>
    intro i f h
    rw [findDonorLoop] at h
    by_cases hi : i = id
    · rw [if_pos hi] at h
      obtain ⟨h1, h2, h3, h4, h5⟩ := ih h
      refine ⟨h1, h2, by omega, by omega, ?_⟩
      intro j hj1 hj2 hj3
      by_cases hji : j = i
      · exact absurd (hji.trans hi) hj3
      · exact h5 j (by omega) hj2 hj3
    · rw [if_neg hi] at h
      by_cases hc : (kcpu st i).freepg_cnt ≠ 0
      · rw [if_pos hc] at h
        have hf : f = i := (Option.some.inj h).symm
        subst hf
        exact ⟨hi, hc, Nat.le_refl _, by omega, fun j hj1 hj2 _ => by omega⟩
      · rw [if_neg hc] at h
        obtain ⟨h1, h2, h3, h4, h5⟩ := ih h
        refine ⟨h1, h2, by omega, by omega, ?_⟩
        intro j hj1 hj2 hj3
        by_cases hji : j = i
        · rw [hji]
          exact Decidable.not_not.mp hc
        · exact h5 j (by omega) hj2 hj3

/-- A failed donor scan means every scanned core other than the local one
had count 0. -/
theorem findDonorLoop_none {st : KState} {id : Nat} :
    ∀ {fuel i : Nat}, findDonorLoop st id fuel i = none →
      ∀ j, i ≤ j → j < i + fuel → j ≠ id → (kcpu st j).freepg_cnt = 0 := by
  intro fuel
  induction fuel with
  | zero =>
    intro i _ j hj1 hj2 _
    omega
  | succ m ih =>
    intro i h j hj1 hj2 hj3
    rw [findDonorLoop] at h
    by_cases hi : i = id
    · rw [if_pos hi] at h
      by_cases hji : j = i
      · exact absurd (hji.trans hi) hj3
      · exact ih h j (by omega) (by omega) hj3
    · rw [if_neg hi] at h
      by_cases hc : (kcpu st i).freepg_cnt ≠ 0
      · rw [if_pos hc] at h
        exact Option.noConfusion h
      · rw [if_neg hc] at h
        by_cases hji : j = i
        · rw [hji]
          exact Decidable.not_not.mp hc
        · exact ih h j (by omega) (by omega) hj3

/-- The work-stealing slow path of `kalloc`, fully computed.  `s` is the
steal count `ceil(n/2)` for a donor holding `n` frames. -/
theorem kalloc_steal (id : Nat) (mem : Nat → Nat) (st : KState) (f n : Nat)
    (hle : (kcpu st id).freelist = [])
    (hf : findDonor st id = some f)
    (hn : (kcpu st f).freelist.length = n)
    (hcnt : (kcpu st f).freepg_cnt = (n : Int))
    (hn0 : n ≠ 0) :
    ∃ r rest, (kcpu st f).freelist.take ((n + 1) / 2) = r :: rest ∧
      kalloc id mem st = some (some r, memset mem r 5,
        (st.set f
          { freelist := (kcpu st f).freelist.drop ((n + 1) / 2),
            freepg_cnt := (kcpu st f).freepg_cnt - (((n + 1) / 2 : Nat) : Int) }).set id
          { freelist := rest,
            freepg_cnt := (kcpu st id).freepg_cnt + (((n + 1) / 2 : Nat) : Int) - 1 }) := by
  have hs1 : 1 ≤ (n + 1) / 2 := by omega
  have hsn : (n + 1) / 2 ≤ n := by omega
  have hteq : Int.tdiv ((kcpu st f).freepg_cnt + 1) 2 = (((n + 1) / 2 : Nat) : Int) := by
    rw [hcnt]
    have h1 : ((n : Int) + 1) = ((n + 1 : Nat) : Int) := by push_cast; ring
    rw [h1]
    rfl
  rcases hl : (kcpu st f).freelist with _ | ⟨a, t⟩
  · rw [hl] at hn
    simp at hn
    exact absurd hn.symm hn0
  · have hc2 : (n + 1) / 2 = ((n + 1) / 2 - 1) + 1 := by omega
    have htake : List.take ((n + 1) / 2) (a :: t) = a :: List.take ((n + 1) / 2 - 1) t := by
      nth_rewrite 1 [hc2]
      rw [List.take_succ_cons]
    have hdrop : List.drop ((n + 1) / 2) (a :: t) = List.drop ((n + 1) / 2 - 1) t := by
      nth_rewrite 1 [hc2]
      rw [List.drop_succ_cons]
    refine ⟨a, t.take ((n + 1) / 2 - 1), htake, ?_⟩
    unfold kalloc
    simp only [hle, hf]
    rw [hteq]
    have htn : ((((n + 1) / 2 : Nat) : Int) - 1).toNat = (n + 1) / 2 - 1 := by omega
    rw [htn]
    rw [if_neg (by rw [hn]; omega)]
    have hc1 : (n + 1) / 2 - 1 + 1 = (n + 1) / 2 := by omega
    rw [hc1, hl, htake, hdrop]

/-- C5: when `kalloc` runs on a core whose free list is empty while some
other core's count is nonzero (counts assumed consistent with list lengths,
the data-model invariant), the first donor core in scan order with nonzero
count `n` loses exactly the first `ceil(n/2) = (n+1)/2` frames of its list
(so it keeps `n - ceil(n/2) ≥ 0` frames, never going below zero), those
frames become the local free list, both counts are adjusted by `ceil(n/2)`,
and one frame — the donor's old head `r` — is popped from the replenished
local list (leaving count `ceil(n/2) - 1`), junk-filled, and returned;
moreover stealing is never performed when the local free list is nonempty:
in that case `kalloc` pops the local head and touches no other core. -/
theorem kalloc_steal_spec (id : Nat) (mem : Nat → Nat) (st : KState)
    (hid : id < st.length)
    (hc : ∀ i, i < st.length → (kcpu st i).freepg_cnt = ((kcpu st i).freelist.length : Int))
    (hempty : (kcpu st id).freelist = [])
    (hex : ∃ j, j < st.length ∧ j ≠ id ∧ (kcpu st j).freepg_cnt ≠ 0) :
    (∃ f, findDonor st id = some f ∧ f ≠ id ∧ f < st.length ∧
      (kcpu st f).freepg_cnt ≠ 0 ∧
      (∀ j, j < f → j ≠ id → (kcpu st j).freepg_cnt = 0) ∧
      ((kcpu st f).freelist.length + 1) / 2 ≤ (kcpu st f).freelist.length ∧
      (∃ r rest,
        (kcpu st f).freelist.take (((kcpu st f).freelist.length + 1) / 2) = r :: rest ∧
        kalloc id mem st = some (some r, memset mem r 5,
          (st.set f
            { freelist := (kcpu st f).freelist.drop
                (((kcpu st f).freelist.length + 1) / 2),
              freepg_cnt := (((kcpu st f).freelist.length -
                ((kcpu st f).freelist.length + 1) / 2 : Nat) : Int) }).set id
            { freelist := rest,
              freepg_cnt := ((((kcpu st f).freelist.length + 1) / 2 : Nat) : Int) - 1 }))) ∧
    (∀ (st2 : KState) (id2 : Nat) (mem2 : Nat → Nat) (r : Nat) (rest : List Nat),
      (kcpu st2 id2).freelist = r :: rest →
      kalloc id2 mem2 st2 = some (some r, memset mem2 r 5,
        st2.set id2 { freelist := rest, freepg_cnt := (kcpu st2 id2).freepg_cnt - 1 })) := by
  constructor
  · rcases hdf : findDonor st id with _ | f
    · exfalso
      obtain ⟨j, hj1, hj2, hj3⟩ := hex
      unfold findDonor at hdf
      exact hj3 (findDonorLoop_none hdf j (Nat.zero_le j) (by omega) hj2)
    · have hprops := findDonorLoop_some (by unfold findDonor at hdf; exact hdf)
      obtain ⟨hfne, hfc, _, hflt, hearlier⟩ := hprops
      have hflt2 : f < st.length := by omega
      have hcntf := hc f hflt2
      have hn0 : (kcpu st f).freelist.length ≠ 0 := by
        intro h0
        apply hfc
        rw [hcntf, h0]
        rfl
      obtain ⟨r, rest, htake, hK⟩ :=
        kalloc_steal id mem st f (kcpu st f).freelist.length hempty hdf rfl hcntf hn0
      refine ⟨f, rfl, hfne, hflt2, hfc, ?_, by omega, r, rest, htake, ?_⟩
      · intro j hj1 hj2
        exact hearlier j (Nat.zero_le j) hj1 hj2
      · rw [hK]
        have e1 : (kcpu st id).freepg_cnt +
            ((((kcpu st f).freelist.length + 1) / 2 : Nat) : Int) - 1 =
            ((((kcpu st f).freelist.length + 1) / 2 : Nat) : Int) - 1 := by
          rw [hc id hid, hempty]
          simp
        have e2 : (kcpu st f).freepg_cnt -
            ((((kcpu st f).freelist.length + 1) / 2 : Nat) : Int) =
            (((kcpu st f).freelist.length -
              ((kcpu st f).freelist.length + 1) / 2 : Nat) : Int) := by
          rw [hcntf]
          omega
        rw [e1, e2]
  · intro st2 id2 mem2 r rest h
    unfold kalloc
    simp only [h]

/-- C6: assuming every core's count equals its free-list length, `kalloc`
is always well defined (no null dereference), and it returns the null
pointer exactly when no free frame exists on any core's free list;
otherwise the returned frame is junk-filled (memset with byte 5). -/
theorem kalloc_null_iff (id : Nat) (mem : Nat → Nat) (st : KState)
    (hid : id < st.length)
    (hc : ∀ i, i < st.length → (kcpu st i).freepg_cnt = ((kcpu st i).freelist.length : Int)) :
    ∃ res mem2 st2, kalloc id mem st = some (res, mem2, st2) ∧
      ((res = none) ↔ (∀ i, i < st.length → (kcpu st i).freelist = [])) ∧
      (∀ r, res = some r → mem2 = memset mem r 5) := by
  rcases hle : (kcpu st id).freelist with _ | ⟨a, t⟩
  · rcases hdf : findDonor st id with _ | f
    · refine ⟨none, mem, st, ?_, ?_, ?_⟩
      · unfold kalloc
        simp only [hle, hdf]
      · constructor
        · intro _ i hi
          by_cases hii : i = id
          · rw [hii]
            exact hle
          · have hz := findDonorLoop_none (by unfold findDonor at hdf; exact hdf)
              i (Nat.zero_le i) (by omega) hii
            rw [hc i hi] at hz
            have : (kcpu st i).freelist.length = 0 := by omega
            exact List.eq_nil_of_length_eq_zero this
        · intro _
          rfl
      · intro r hr
        exact Option.noConfusion hr
    · have hprops := findDonorLoop_some (by unfold findDonor at hdf; exact hdf)
      obtain ⟨hfne, hfc, _, hflt, _⟩ := hprops
      have hflt2 : f < st.length := by omega
      have hcntf := hc f hflt2
      have hn0 : (kcpu st f).freelist.length ≠ 0 := by
        intro h0
        apply hfc
        rw [hcntf, h0]
        rfl
      obtain ⟨r, rest, htake, hK⟩ :=
        kalloc_steal id mem st f (kcpu st f).freelist.length hle hdf rfl hcntf hn0
      refine ⟨some r, memset mem r 5, _, hK, ?_, ?_⟩
      · constructor
        · intro h
          exact Option.noConfusion h
        · intro hall
          exfalso
          apply hn0
          rw [hall f hflt2]
          rfl
      · intro r2 hr2
        rw [Option.some.inj hr2]
  · refine ⟨some a, memset mem a 5,
      st.set id { freelist := t, freepg_cnt := (kcpu st id).freepg_cnt - 1 }, ?_, ?_, ?_⟩
    · unfold kalloc
      simp only [hle]
    · constructor
      · intro h
        exact Option.noConfusion h
      · intro hall
        exfalso
        have := hall id hid
        rw [hle] at this
        exact List.noConfusion this
    · intro r hr
      rw [Option.some.inj hr]

/-- C7: `kfree(pa)` panics exactly when `pa` is not page-aligned, lies below
the end of the kernel image, or lies at or above the top of managed physical
memory; for every valid `pa` it overwrites the whole 4096-byte frame with
junk byte 1 and pushes the frame onto the current core's free list,
incrementing that core's count by one and leaving every other core
untouched. -/
theorem kfree_spec (kend phystop pa id : Nat) (mem : Nat → Nat) (st : KState)
    (hid : id < st.length) :
    (kfree kend phystop pa id mem st = none ↔
      (pa % PGSIZE ≠ 0 ∨ pa < kend ∨ phystop ≤ pa)) ∧
    (¬ (pa % PGSIZE ≠ 0 ∨ pa < kend ∨ phystop ≤ pa) →
      ∃ st2, kfree kend phystop pa id mem st = some (memset mem pa 1, st2) ∧
        (∀ a, memset mem pa 1 a = if pa ≤ a ∧ a < pa + PGSIZE then 1 else mem a) ∧
        (kcpu st2 id).freelist = pa :: (kcpu st id).freelist ∧
        (kcpu st2 id).freepg_cnt = (kcpu st id).freepg_cnt + 1 ∧
        (∀ j, j ≠ id → kcpu st2 j = kcpu st j)) := by
  constructor
  · constructor
    · intro h
      by_contra hc
      unfold kfree at h
      rw [if_neg hc] at h
      exact Option.noConfusion h
    · intro h
      unfold kfree
      rw [if_pos h]
  · intro h
    refine ⟨st.set id ⟨pa :: (kcpu st id).freelist, (kcpu st id).freepg_cnt + 1⟩,
      ?_, fun a => rfl, ?_, ?_, ?_⟩
    · unfold kfree
      rw [if_neg h]
    · unfold kcpu
      rw [getD_set_self _ _ _ _ hid]
    · unfold kcpu
      rw [getD_set_self _ _ _ _ hid]
    · intro j hj
      unfold kcpu
      rw [getD_set_ne _ _ _ _ _ (fun hh => hj hh.symm)]

/-! ## Witnesses: the theorems applied at concrete inputs -/

theorem bucket_membership_locking_witness :
    Inv smallState ∧ Inv (applyOp (Op.relse 0) smallState).1 :=
  ⟨invCheck_sound smallState (by decide),
   (bucket_membership_locking.2 (Op.relse 0) smallState
     (invCheck_sound smallState (by decide))).1⟩

theorem bget_repurpose_only_free_witness :
    (buf (bget 1 14 smallState).2.1 1).blockno ≠ (buf smallState 1).blockno ∧
    (buf smallState 1).refcnt = 0 :=
  ⟨by decide, bget_repurpose_only_free smallState 1 14 1 (Or.inr (Or.inl (by decide)))⟩

theorem brelse_spec_witness :
    (buf smallState 0).lockHeld = true ∧ (brelse 0 smallState).1 = Except.ok () :=
  ⟨by decide, ((brelse_spec smallState 0
     (invCheck_sound smallState (by decide))).2 (by decide)).1⟩

theorem bwrite_spec_witness :
    (buf smallState 0).lockHeld = true ∧
    bwrite 0 smallState = Except.ok (smallState, [DiskOp.write 1 0 0]) := by
  refine ⟨by decide, ?_⟩
  rw [(bwrite_spec smallState 0).2 (by decide)]
  rfl

theorem bpin_bunpin_spec_witness :
    buf (bpin 1 smallState) 1 =
      { buf smallState 1 with refcnt := ((buf smallState 1).refcnt + 1) % U32 } ∧
    (buf smallState 1).refcnt = 0 ∧ (buf (bunpin 1 smallState) 1).refcnt = U32 - 1 :=
  ⟨(bpin_bunpin_spec smallState 1 (by decide)).1, by decide,
   (bpin_bunpin_spec smallState 1 (by decide)).2.2.2.2.2 (by decide)⟩

theorem kalloc_steal_spec_witness :
    (∃ f, findDonor kSt5 0 = some f ∧ f ≠ 0 ∧ f < kSt5.length ∧
      (kcpu kSt5 f).freepg_cnt ≠ 0 ∧
      (∀ j, j < f → j ≠ 0 → (kcpu kSt5 j).freepg_cnt = 0) ∧
      ((kcpu kSt5 f).freelist.length + 1) / 2 ≤ (kcpu kSt5 f).freelist.length ∧
      (∃ r rest,
        (kcpu kSt5 f).freelist.take (((kcpu kSt5 f).freelist.length + 1) / 2) = r :: rest ∧
        kalloc 0 kmem0 kSt5 = some (some r, memset kmem0 r 5,
          (kSt5.set f
            { freelist := (kcpu kSt5 f).freelist.drop
                (((kcpu kSt5 f).freelist.length + 1) / 2),
              freepg_cnt := (((kcpu kSt5 f).freelist.length -
                ((kcpu kSt5 f).freelist.length + 1) / 2 : Nat) : Int) }).set 0
            { freelist := rest,
              freepg_cnt := ((((kcpu kSt5 f).freelist.length + 1) / 2 : Nat) : Int) - 1 }))) ∧
    (∀ (st2 : KState) (id2 : Nat) (mem2 : Nat → Nat) (r : Nat) (rest : List Nat),
      (kcpu st2 id2).freelist = r :: rest →
      kalloc id2 mem2 st2 = some (some r, memset mem2 r 5,
        st2.set id2 { freelist := rest, freepg_cnt := (kcpu st2 id2).freepg_cnt - 1 })) :=
  kalloc_steal_spec 0 kmem0 kSt5 (by decide) (by decide) (by decide)
    ⟨1, by decide, by decide, by decide⟩

theorem kalloc_null_iff_witness :
    ∃ res mem2 st2, kalloc 0 kmem0 kSt6 = some (res, mem2, st2) ∧
      ((res = none) ↔ (∀ i, i < kSt6.length → (kcpu kSt6 i).freelist = [])) ∧
      (∀ r, res = some r → mem2 = memset kmem0 r 5) :=
  kalloc_null_iff 0 kmem0 kSt6 (by decide) (by decide)

theorem kfree_spec_witness :
    (kfree 4096 12288 8192 0 kmem0 kSt6 = none ↔
      (8192 % PGSIZE ≠ 0 ∨ 8192 < 4096 ∨ 12288 ≤ 8192)) ∧
    (¬ (8192 % PGSIZE ≠ 0 ∨ 8192 < 4096 ∨ 12288 ≤ 8192) →
      ∃ st2, kfree 4096 12288 8192 0 kmem0 kSt6 = some (memset kmem0 8192 1, st2) ∧
        (∀ a, memset kmem0 8192 1 a = if 8192 ≤ a ∧ a < 8192 + PGSIZE then 1 else kmem0 a) ∧
        (kcpu st2 0).freelist = 8192 :: (kcpu kSt6 0).freelist ∧
        (kcpu st2 0).freepg_cnt = (kcpu kSt6 0).freepg_cnt + 1 ∧
        (∀ j, j ≠ 0 → kcpu st2 j = kcpu kSt6 j)) :=
  kfree_spec 4096 12288 8192 0 kmem0 kSt6 (by decide)

end Xv6
